import Mathlib

/-!
# Verification of the browser-use job service core

Shallow embedding of the job store, lifecycle and runner from
`api/models/job.py`, `api/routers/jobs.py` and `api/services/job_service.py`.

Modelling conventions:
* timestamps are integers (seconds); the Python code stores ISO-8601 strings
  and compares `(now - createdAt).total_seconds() > timeout`, which we render
  as `now - createdAt > timeout` over `Int`;
* the filesystem jobs directory is a `Store`, an association list from file
  key (the file name without the `.json` suffix) to the persisted record;
* every operation that writes a file also returns the list of write events it
  performed, so that persisted side effects of reads are observable;
* `hashlib.sha256(...).hexdigest()` is embedded as an executable SHA-256 over
  the UTF-8 bytes of the task string, producing the lowercase hex digest.
-/

/-! ## SHA-256 (hashlib.sha256(task.encode()).hexdigest()) -/

/-- UTF-8 encoding of a single code point, as a list of byte values. -/
def utf8EncodeChar (c : Nat) : List Nat :=
  if c < 0x80 then [c]
  else if c < 0x800 then [0xC0 + c / 64, 0x80 + c % 64]
  else if c < 0x10000 then [0xE0 + c / 4096, 0x80 + (c / 64) % 64, 0x80 + c % 64]
  else [0xF0 + c / 262144, 0x80 + (c / 4096) % 64, 0x80 + (c / 64) % 64, 0x80 + c % 64]

/-- UTF-8 bytes of a string (Python `task.encode()`). -/
def strBytes (s : String) : List Nat :=
  (s.data.map (fun c => utf8EncodeChar c.toNat)).flatten

/-- Right rotation of a 32-bit word held in a `Nat`. -/
def rotr32 (x n : Nat) : Nat :=
  (x >>> n) ||| ((x <<< (32 - n)) % 4294967296)

/-- The 64 SHA-256 round constants, written in decimal. -/
def sha256K : List Nat :=
  [1116352408, 1899447441, 3049323471, 3921009573, 961987163,
   1508970993, 2453635748, 2870763221, 3624381080, 310598401,
   607225278, 1426881987, 1925078388, 2162078206, 2614888103,
   3248222580, 3835390401, 4022224774, 264347078, 604807628,
   770255983, 1249150122, 1555081692, 1996064986, 2554220882,
   2821834349, 2952996808, 3210313671, 3336571891, 3584528711,
   113926993, 338241895, 666307205, 773529912, 1294757372,
   1396182291, 1695183700, 1986661051, 2177026350, 2456956037,
   2730485921, 2820302411, 3259730800, 3345764771, 3516065817,
   3600352804, 4094571909, 275423344, 430227734, 506948616,
   659060556, 883997877, 958139571, 1322822218, 1537002063,
   1747873779, 1955562222, 2024104815, 2227730452, 2361852424,
   2428436474, 2756734187, 3204031479, 3329325298]

/-- SHA-256 initial hash values, written in decimal. -/
def sha256H0 : List Nat :=
  [1779033703, 3144134277, 1013904242,
   2773480762, 1359893119, 2600822924,
   528734635, 1541459225]

/-- Pad a byte message per SHA-256: append 0x80, zeros, and the 64-bit
big-endian bit length, reaching a multiple of 64 bytes. -/
def sha256pad (msg : List Nat) : List Nat :=
  let len := msg.length
  let padZeros := (119 - len % 64) % 64
  msg ++ [0x80] ++ List.replicate padZeros 0 ++
    (List.range 8).map (fun i => ((len * 8) >>> ((7 - i) * 8)) % 256)

/-- Group bytes into big-endian 32-bit words. -/
def bytesToWords : List Nat → List Nat
  | b0 :: b1 :: b2 :: b3 :: rest =>
      (((b0 * 256 + b1) * 256 + b2) * 256 + b3) :: bytesToWords rest
  | _ => []

/-- Extend a 16-word block towards the 64-word message schedule, appending
`fuel` further words. -/
def sha256Schedule : Nat → Array Nat → Array Nat
  | 0, w => w
  | fuel + 1, w =>
    let x15 := w.getD (w.size - 15) 0
    let x2 := w.getD (w.size - 2) 0
    let s0 := rotr32 x15 7 ^^^ rotr32 x15 18 ^^^ (x15 >>> 3)
    let s1 := rotr32 x2 17 ^^^ rotr32 x2 19 ^^^ (x2 >>> 10)
    sha256Schedule fuel
      (w.push ((w.getD (w.size - 16) 0 + s0 + w.getD (w.size - 7) 0 + s1) % 4294967296))

/-- One SHA-256 compression round. -/
def sha256Round (ki wi : Nat) : List Nat → List Nat
  | [a, b, c, d, e, f, g, h] =>
      let s1 := rotr32 e 6 ^^^ rotr32 e 11 ^^^ rotr32 e 25
      let ch := (e &&& f) ^^^ ((e ^^^ 4294967295) &&& g)
      let t1 := (h + s1 + ch + ki + wi) % 4294967296
      let s0 := rotr32 a 2 ^^^ rotr32 a 13 ^^^ rotr32 a 22
      let mj := (a &&& b) ^^^ (a &&& c) ^^^ (b &&& c)
      let t2 := (s0 + mj) % 4294967296
      [(t1 + t2) % 4294967296, a, b, c, (d + t1) % 4294967296, e, f, g]
  | st => st

/-- Run the 64 compression rounds for one block. -/
def sha256Rounds : List Nat → List Nat → List Nat → List Nat
  | k :: ks, wi :: ws, st => sha256Rounds ks ws (sha256Round k wi st)
  | _, _, st => st

/-- Process one 64-byte block, updating the running hash state. -/
def sha256Block (hs : List Nat) (block : List Nat) : List Nat :=
  let w := sha256Schedule 48 (Array.mk (bytesToWords block))
  let st := sha256Rounds sha256K w.toList hs
  (hs.zip st).map (fun p => (p.1 + p.2) % 4294967296)

/-- Split a padded message into 64-byte blocks and fold the compression;
`fuel` bounds the number of blocks processed. -/
def sha256BlocksGo : Nat → List Nat → List Nat → List Nat
  | _, hs, [] => hs
  | 0, hs, _ => hs
  | fuel + 1, hs, msg => sha256BlocksGo fuel (sha256Block hs (msg.take 64)) (msg.drop 64)

/-- Fold the compression over all 64-byte blocks of a padded message. -/
def sha256Blocks (hs : List Nat) (msg : List Nat) : List Nat :=
  sha256BlocksGo msg.length hs msg

/-- Lowercase hexadecimal digit. -/
def hexDigit (n : Nat) : Char :=
  if n < 10 then Char.ofNat (48 + n) else Char.ofNat (87 + n)

/-- Eight-hex-digit rendering of a 32-bit word. -/
def wordToHex (w : Nat) : List Char :=
  (List.range 8).map (fun i => hexDigit ((w >>> ((7 - i) * 4)) % 16))

/-- Python sha256(s.encode()).hexdigest(): lowercase hex SHA-256 of the
UTF-8 bytes of `s`. -/
def sha256hex (s : String) : String :=
  String.mk (((sha256Blocks sha256H0 (sha256pad (strBytes s))).map wordToHex).flatten)

/-! ## Data model (api/models/job.py)

A `Job` mirrors the pydantic model: `id`, `task`, `result`, `status`,
`createdAt`, `updatedAt`, `timeout`. Statuses are the literal strings
"pending", "running", "completed", "timedOut". The jobs directory is a
`Store`; the key of an entry is the file name stripped of ".json". -/

structure Job where
  id : String
  task : String
  result : Option String
  status : String
  createdAt : Int
  updatedAt : Option Int
  timeout : Int
deriving Repr, DecidableEq

/-- One file write: the key written and the record contents. -/
abbrev WriteEvent := String × Job

/-- The jobs directory: association list from file key to persisted record. -/
abbrev Store := List (String × Job)

/-- Look up the record stored under a key. -/
def Store.find : Store → String → Option Job
  | [], _ => none
  | (k, r) :: rest, key => if k = key then some r else Store.find rest key

/-- Overwrite (or create) the record stored under a key. -/
def Store.set : Store → String → Job → Store
  | [], key, r => [(key, r)]
  | (k, x) :: rest, key, r =>
    if k = key then (key, r) :: rest else (k, x) :: Store.set rest key r

/-- Python Job.save: `json.dump(self.model_dump(), f)` into the file named by
`self.id`, overwriting unconditionally. -/
def Job.save (s : Store) (r : Job) : Store × List WriteEvent :=
  (Store.set s r.id r, [(r.id, r)])

/-- Python Job.__init__: builds the record, forcing
`id := sha256(task).hexdigest()` regardless of the `id` argument, and
immediately saves it. The Python default for `createdAt` is
`datetime.now(tz=timezone.utc).isoformat()` evaluated ONCE at class-definition
time (module load), so a caller omitting `createdAt` passes the module-load
timestamp here, not the current time. -/
def Job.init (s : Store) (task : String) (result : Option String)
    (status : String) (createdAt : Int) (updatedAt : Option Int)
    (timeout : Int) : Job × Store × List WriteEvent :=
  let r : Job :=
    { id := sha256hex task, task := task, result := result, status := status,
      createdAt := createdAt, updatedAt := updatedAt, timeout := timeout }
  let (s2, w) := Job.save s r
  (r, s2, w)

/-- Python Job.timed_out:
`(now - datetime.fromisoformat(self.createdAt)).total_seconds() > self.timeout`. -/
def Job.timed_out (now : Int) (r : Job) : Bool :=
  decide (now - r.createdAt > r.timeout)

/-- Python Job.update: sets `updatedAt` to now, applies the given field
changes (the call sites in this repository only ever pass `status` and
`result`), and saves. -/
def Job.update (now : Int) (s : Store) (r : Job)
    (status : Option String) (result : Option (Option String)) :
    Job × Store × List WriteEvent :=
  let r2 := { r with updatedAt := some now,
                     status := status.getD r.status,
                     result := result.getD r.result }
  let (s2, w) := Job.save s r2
  (r2, s2, w)

/-- Python Job.get_job: if the file exists, reconstructs the record through
`Job(**json.load(f))` — whose `__init__` re-saves it — then applies lazy
timeout promotion: a running record past its timeout is updated to
"timedOut" before being returned. -/
def Job.get_job (now : Int) (s : Store) (job_id : String) :
    Option Job × Store × List WriteEvent :=
  match Store.find s job_id with
  | none => (none, s, [])
  | some file =>
    let (job, s1, w1) := Job.init s file.task file.result file.status
        file.createdAt file.updatedAt file.timeout
    if job.status = "running" ∧ Job.timed_out now job then
      let (job2, s2, w2) := Job.update now s1 job (some "timedOut") none
      (some job2, s2, w1 ++ w2)
    else
      (some job, s1, w1)

/-- Helper for `Job.get_jobs`: loads each listed key in order via
`Job.get_job`, threading the store (each load sees the previous rewrites). -/
def Job.get_jobs_go (now : Int) :
    List String → Store → List (Option Job) × Store × List WriteEvent
  | [], s => ([], s, [])
  | k :: ks, s =>
    let (j, s1, w1) := Job.get_job now s k
    let (js, s2, w2) := Job.get_jobs_go now ks s1
    (j :: js, s2, w1 ++ w2)

/-- Python Job.get_jobs: lists the directory once (file names stripped of
".json" — for hex SHA-256 ids `rstrip` strips exactly that suffix), then
loads every record via `Job.get_job`. -/
def Job.get_jobs (now : Int) (s : Store) :
    List (Option Job) × Store × List WriteEvent :=
  Job.get_jobs_go now (s.map Prod.fst) s

/-! ## API surface (api/routers/jobs.py) and runner (api/services/job_service.py) -/

/-- Request body of POST /jobs. -/
structure JobCreate where
  task : String
  overwrite : Bool
  timeout : Int

/-- Pydantic validation on JobCreate.timeout: `Field(..., ge=1, le=3600)`;
requests outside this range are rejected with a 422 before the handler runs. -/
def JobCreate.timeoutValid (j : JobCreate) : Prop :=
  1 ≤ j.timeout ∧ j.timeout ≤ 3600

instance (j : JobCreate) : Decidable j.timeoutValid := by
  unfold JobCreate.timeoutValid
  infer_instance

/-- Result of the POST /jobs handler: final store, response record, whether a
background execution was scheduled, and the writes performed. -/
structure CreateOut where
  store : Store
  resp : Job
  scheduled : Bool
  trace : List WriteEvent
deriving Repr, DecidableEq

/-- Python create_job (POST /jobs): computes `job_id = sha256(task)`, reads
the store via `Job.get_job`; if found and not overwriting, returns the loaded
record without scheduling. Otherwise it constructs `Job(task=job_data.task)`
— passing NEITHER the request timeout (so the stored timeout is the default
300) NOR a creation timestamp (so the stored createdAt is the
module-load-time default of Job.__init__) — and schedules `run_job`. -/
def create_job (moduleLoadTime now : Int) (s : Store) (job_data : JobCreate) :
    CreateOut :=
  let job_id := sha256hex job_data.task
  let (found, s1, w1) := Job.get_job now s job_id
  match found with
  | some job =>
    if !job_data.overwrite then ⟨s1, job, false, w1⟩
    else
      let (job2, s2, w2) :=
        Job.init s1 job_data.task none "pending" moduleLoadTime none 300
      ⟨s2, job2, true, w1 ++ w2⟩
  | none =>
    let (job2, s2, w2) :=
      Job.init s1 job_data.task none "pending" moduleLoadTime none 300
    ⟨s2, job2, true, w1 ++ w2⟩

/-- Python run_job: updates the job to "running" (persisting it), awaits the
external agent — modelled by its outcome: `.error e` when the agent raises,
`.ok res` with `history.final_result()` otherwise — and on success updates
the job to "completed" with the result. A raised exception propagates out of
the runner with no further store write. -/
def run_job (now1 now2 : Int) (s : Store) (job : Job)
    (agent : Except String (Option String)) :
    Except String Unit × Store × List WriteEvent :=
  let (job1, s1, w1) := Job.update now1 s job (some "running") none
  match agent with
  | .error e => (.error e, s1, w1)
  | .ok res =>
    let (_, s2, w2) := Job.update now2 s1 job1 (some "completed") (some res)
    (.ok (), s2, w1 ++ w2)

/-! ## Store invariants and basic lemmas -/

/-- Invariant: every entry of the store is filed under the own id of its record,
and that id is the SHA-256 of its task. -/
def Store.keysOk (s : Store) : Prop :=
  ∀ p ∈ s, p.1 = p.2.id ∧ p.2.id = sha256hex p.2.task

instance (s : Store) : Decidable s.keysOk := by
  unfold Store.keysOk
  exact List.decidableBAll _ s

/-- Invariant of a single record: `result` is non-null only when the status
is "completed". -/
def Job.resultOk (r : Job) : Prop :=
  r.result ≠ none → r.status = "completed"

instance (r : Job) : Decidable r.resultOk := by
  unfold Job.resultOk
  infer_instance

/-- Store-wide form of `Job.resultOk`. -/
def Store.resultOk (s : Store) : Prop :=
  ∀ p ∈ s, p.2.resultOk

instance (s : Store) : Decidable s.resultOk := by
  unfold Store.resultOk
  exact List.decidableBAll _ s

theorem Store.find_set (s : Store) (k k2 : String) (r : Job) :
    Store.find (Store.set s k r) k2 = if k = k2 then some r else Store.find s k2 := by
  induction s with
  | nil => simp [Store.set, Store.find]
  | cons p rest ih =>
    obtain ⟨k1, r1⟩ := p
    by_cases h1 : k1 = k
    · subst h1
      by_cases h2 : k1 = k2 <;> simp [Store.set, Store.find, h2]
    · by_cases h2 : k1 = k2
      · subst h2
        have : k ≠ k1 := fun hh => h1 hh.symm
        simp [Store.set, Store.find, h1, this]
      · simp [Store.set, Store.find, h1, h2, ih]

theorem Store.find_mem (s : Store) (k : String) (r : Job)
    (h : Store.find s k = some r) : (k, r) ∈ s := by
  induction s with
  | nil => simp [Store.find] at h
  | cons p rest ih =>
    obtain ⟨k1, r1⟩ := p
    by_cases h1 : k1 = k
    · subst h1
      simp [Store.find] at h
      subst h
      exact List.mem_cons_self _ _
    · simp [Store.find, h1] at h
      exact List.mem_cons_of_mem _ (ih h)

theorem Store.mem_keys_isSome (s : Store) (k : String)
    (h : k ∈ s.map Prod.fst) : (Store.find s k).isSome := by
  induction s with
  | nil => simp at h
  | cons p rest ih =>
    obtain ⟨k1, r1⟩ := p
    by_cases h1 : k1 = k
    · simp [Store.find, h1]
    · rw [List.map_cons, List.mem_cons] at h
      rcases h with h | h
      · exact absurd h.symm h1
      · simpa [Store.find, h1] using ih h

theorem Store.mem_set (s : Store) (k : String) (r : Job) (p : String × Job)
    (hp : p ∈ Store.set s k r) : p = (k, r) ∨ p ∈ s := by
  induction s with
  | nil =>
    simp [Store.set] at hp
    exact Or.inl hp
  | cons q rest ih =>
    obtain ⟨k1, r1⟩ := q
    by_cases h1 : k1 = k
    · simp [Store.set, h1] at hp
      rcases hp with hp | hp
      · exact Or.inl hp
      · exact Or.inr (List.mem_cons_of_mem _ hp)
    · simp only [Store.set, if_neg h1, List.mem_cons] at hp
      rcases hp with hp | hp
      · exact Or.inr (by simp [hp])
      · rcases ih hp with h | h
        · exact Or.inl h
        · exact Or.inr (List.mem_cons_of_mem _ h)

theorem Store.keysOk_set (s : Store) (r : Job) (hs : s.keysOk)
    (hr : r.id = sha256hex r.task) : (Store.set s r.id r).keysOk := by
  intro p hp
  rcases Store.mem_set s r.id r p hp with h | h
  · subst h
    exact ⟨rfl, hr⟩
  · exact hs p h

theorem Store.resultOk_set (s : Store) (k : String) (r : Job) (hs : s.resultOk)
    (hr : r.resultOk) : (Store.set s k r).resultOk := by
  intro p hp
  rcases Store.mem_set s k r p hp with h | h
  · subst h
    exact hr
  · exact hs p h

/-! ## Behaviour of Job.get_job on reachable records -/

/-- Reloading a record through Job.__init__ reproduces it exactly whenever its
id field equals the hash of its task — which holds for every record this
system ever writes, since `__init__` forces that equation. -/
theorem Job.init_reload (s : Store) (r : Job) (hhash : sha256hex r.task = r.id) :
    Job.init s r.task r.result r.status r.createdAt r.updatedAt r.timeout =
      (r, Store.set s r.id r, [(r.id, r)]) := by
  unfold Job.init Job.save
  cases r
  simp_all

/-- Promoted form of a record: status forced to "timedOut", updatedAt stamped. -/
def Job.promote (now : Int) (r : Job) : Job :=
  { r with status := "timedOut", updatedAt := some now }

/-- Characterization of Job.get_job at a present key whose record satisfies
the key invariant: the record is first re-saved unchanged (the `__init__`
side effect), then promoted to "timedOut" iff it is running past its
timeout. -/
theorem Job.get_job_found (now : Int) (s : Store) (k : String) (r : Job)
    (hfind : Store.find s k = some r) (hhash : sha256hex r.task = r.id)
    (hid : r.id = k) :
    Job.get_job now s k =
      if r.status = "running" ∧ Job.timed_out now r then
        (some (Job.promote now r),
         Store.set (Store.set s r.id r) r.id (Job.promote now r),
         [(r.id, r), (r.id, Job.promote now r)])
      else (some r, Store.set s r.id r, [(r.id, r)]) := by
  subst hid
  unfold Job.get_job
  rw [hfind]
  dsimp only
  rw [Job.init_reload s r hhash]
  dsimp only
  by_cases hc : r.status = "running" ∧ Job.timed_out now r
  · simp only [if_pos hc, Job.update, Job.save, Job.promote, Option.getD_some,
      Option.getD_none]
    rfl
  · simp only [if_neg hc]

theorem Job.get_job_keysOk (now : Int) (s : Store) (k : String)
    (hs : s.keysOk) : ((Job.get_job now s k).2.1).keysOk := by
  cases hfind : Store.find s k with
  | none =>
    unfold Job.get_job
    rw [hfind]
    exact hs
  | some r =>
    obtain ⟨hky, hh⟩ := hs (k, r) (Store.find_mem s k r hfind)
    rw [Job.get_job_found now s k r hfind hh.symm hky.symm]
    by_cases hc : r.status = "running" ∧ Job.timed_out now r
    · simp only [if_pos hc]
      have h1 : (Store.set s r.id r).keysOk := Store.keysOk_set s r hs hh
      exact Store.keysOk_set (Store.set s r.id r) (Job.promote now r) h1 hh
    · simp only [if_neg hc]
      exact Store.keysOk_set s r hs hh

theorem Job.get_job_isSome (now : Int) (s : Store) (k k2 : String)
    (hs : s.keysOk) (h2 : (Store.find s k2).isSome) :
    (Store.find (Job.get_job now s k).2.1 k2).isSome := by
  cases hfind : Store.find s k with
  | none =>
    unfold Job.get_job
    rw [hfind]
    exact h2
  | some r =>
    obtain ⟨hky, hh⟩ := hs (k, r) (Store.find_mem s k r hfind)
    rw [Job.get_job_found now s k r hfind hh.symm hky.symm]
    by_cases hc : r.status = "running" ∧ Job.timed_out now r
    · simp only [if_pos hc, Store.find_set]
      by_cases he : r.id = k2 <;> simp [he, h2]
    · simp only [if_neg hc, Store.find_set]
      by_cases he : r.id = k2 <;> simp [he, h2]

theorem Job.resultOk_promote (now : Int) (r : Job) (hr : r.resultOk)
    (hrun : r.status = "running") : (Job.promote now r).resultOk := by
  intro hne
  have : r.result ≠ none := hne
  have hdone := hr this
  rw [hrun] at hdone
  exact absurd hdone (by decide)

theorem Job.get_job_resultOk (now : Int) (s : Store) (k : String)
    (hs : s.keysOk) (hres : s.resultOk) :
    ((Job.get_job now s k).2.1).resultOk := by
  cases hfind : Store.find s k with
  | none =>
    unfold Job.get_job
    rw [hfind]
    exact hres
  | some r =>
    obtain ⟨hky, hh⟩ := hs (k, r) (Store.find_mem s k r hfind)
    have hrOk : r.resultOk := hres (k, r) (Store.find_mem s k r hfind)
    rw [Job.get_job_found now s k r hfind hh.symm hky.symm]
    by_cases hc : r.status = "running" ∧ Job.timed_out now r
    · simp only [if_pos hc]
      exact Store.resultOk_set _ _ _ (Store.resultOk_set _ _ _ hres hrOk)
        (Job.resultOk_promote now r hrOk hc.1)
    · simp only [if_neg hc]
      exact Store.resultOk_set _ _ _ hres hrOk

theorem Job.get_job_trace_mem (now : Int) (s : Store) (k : String) (r : Job)
    (hfind : Store.find s k = some r) (hhash : sha256hex r.task = r.id)
    (hid : r.id = k) : (k, r) ∈ (Job.get_job now s k).2.2 := by
  rw [Job.get_job_found now s k r hfind hhash hid]
  by_cases hc : r.status = "running" ∧ Job.timed_out now r <;> simp [hc, hid]

theorem Job.get_job_ret_resultOk (now : Int) (s : Store) (k : String)
    (hs : s.keysOk) (hres : s.resultOk) :
    ∀ j, (Job.get_job now s k).1 = some j → j.resultOk := by
  intro j hj
  cases hfind : Store.find s k with
  | none =>
    unfold Job.get_job at hj
    rw [hfind] at hj
    exact absurd hj (by simp)
  | some r =>
    obtain ⟨hky, hh⟩ := hs (k, r) (Store.find_mem s k r hfind)
    have hrOk : r.resultOk := hres (k, r) (Store.find_mem s k r hfind)
    rw [Job.get_job_found now s k r hfind hh.symm hky.symm] at hj
    by_cases hc : r.status = "running" ∧ Job.timed_out now r
    · rw [if_pos hc] at hj
      dsimp at hj
      cases hj
      exact Job.resultOk_promote now r hrOk hc.1
    · rw [if_neg hc] at hj
      dsimp at hj
      cases hj
      exact hrOk

theorem Job.init_keysOk (s : Store) (task : String) (res : Option String)
    (st : String) (ca : Int) (ua : Option Int) (ti : Int) (hs : s.keysOk) :
    ((Job.init s task res st ca ua ti).2.1).keysOk := by
  unfold Job.init Job.save
  dsimp
  exact Store.keysOk_set s
    { id := sha256hex task, task := task, result := res, status := st,
      createdAt := ca, updatedAt := ua, timeout := ti } hs rfl

theorem Job.init_resultOk (s : Store) (task : String) (st : String) (ca : Int)
    (ua : Option Int) (ti : Int) (hs : s.resultOk) :
    ((Job.init s task none st ca ua ti).2.1).resultOk ∧
      (Job.init s task none st ca ua ti).1.resultOk := by
  unfold Job.init Job.save
  dsimp
  constructor
  · refine Store.resultOk_set s _ _ hs ?_
    intro h
    exact absurd rfl h
  · intro h
    exact absurd rfl h

theorem create_job_keysOk (mlt now : Int) (s : Store) (jd : JobCreate)
    (hs : s.keysOk) : ((create_job mlt now s jd).store).keysOk := by
  have h1 := Job.get_job_keysOk now s (sha256hex jd.task) hs
  have h2 := Job.init_keysOk ((Job.get_job now s (sha256hex jd.task)).2.1)
    jd.task none "pending" mlt none 300 h1
  unfold create_job
  dsimp only
  rcases hg : Job.get_job now s (sha256hex jd.task) with ⟨found, s1, w1⟩
  rw [hg] at h1 h2
  dsimp at h1 h2 ⊢
  cases found with
  | none =>
    rcases hi : Job.init s1 jd.task none "pending" mlt none 300 with ⟨job2, s2, w2⟩
    rw [hi] at h2
    dsimp at h2 ⊢
    exact h2
  | some j =>
    rcases Bool.eq_false_or_eq_true jd.overwrite with hov | hov <;>
      rw [hov] <;> simp only [Bool.not_false, Bool.not_true]
    · rw [if_neg (by simp)]
      rcases hi : Job.init s1 jd.task none "pending" mlt none 300 with ⟨job2, s2, w2⟩
      rw [hi] at h2
      dsimp at h2 ⊢
      exact h2
    · simp only [if_true]
      exact h1

theorem run_job_keysOk (n1 n2 : Int) (s : Store) (job : Job)
    (ag : Except String (Option String)) (hs : s.keysOk)
    (hj : job.id = sha256hex job.task) :
    ((run_job n1 n2 s job ag).2.1).keysOk := by
  unfold run_job Job.update Job.save
  cases ag with
  | error e =>
    dsimp
    exact Store.keysOk_set s
      { job with status := "running", updatedAt := some n1 } hs hj
  | ok res =>
    dsimp
    exact Store.keysOk_set _
      { job with status := "completed", result := res, updatedAt := some n2 }
      (Store.keysOk_set s
        { job with status := "running", updatedAt := some n1 } hs hj) hj

theorem create_job_resultOk (mlt now : Int) (s : Store) (jd : JobCreate)
    (hs : s.keysOk) (hres : s.resultOk) :
    ((create_job mlt now s jd).store).resultOk ∧
      (create_job mlt now s jd).resp.resultOk := by
  have h1 := Job.get_job_resultOk now s (sha256hex jd.task) hs hres
  have h2 := Job.get_job_ret_resultOk now s (sha256hex jd.task) hs hres
  have h3 := Job.init_resultOk ((Job.get_job now s (sha256hex jd.task)).2.1)
    jd.task "pending" mlt none 300 h1
  unfold create_job
  dsimp only
  rcases hg : Job.get_job now s (sha256hex jd.task) with ⟨found, s1, w1⟩
  rw [hg] at h1 h2 h3
  dsimp at h1 h2 h3 ⊢
  cases found with
  | none =>
    rcases hi : Job.init s1 jd.task none "pending" mlt none 300 with ⟨job2, s2, w2⟩
    rw [hi] at h3
    dsimp at h3 ⊢
    exact h3
  | some j =>
    rcases Bool.eq_false_or_eq_true jd.overwrite with hov | hov <;>
      rw [hov] <;> simp only [Bool.not_false, Bool.not_true]
    · rw [if_neg (by simp)]
      rcases hi : Job.init s1 jd.task none "pending" mlt none 300 with ⟨job2, s2, w2⟩
      rw [hi] at h3
      dsimp at h3 ⊢
      exact h3
    · simp only [if_true]
      exact ⟨h1, h2 j rfl⟩

theorem run_job_resultOk (n1 n2 : Int) (s : Store) (job : Job)
    (ag : Except String (Option String)) (hres : s.resultOk)
    (hjob : job.result = none) :
    ((run_job n1 n2 s job ag).2.1).resultOk := by
  unfold run_job Job.update Job.save
  cases ag with
  | error e =>
    dsimp
    refine Store.resultOk_set s _
      { job with status := "running", updatedAt := some n1 } hres ?_
    intro h
    exact absurd hjob h
  | ok res =>
    dsimp
    refine Store.resultOk_set _ _
      { job with status := "completed", result := res, updatedAt := some n2 }
      (Store.resultOk_set s _
        { job with status := "running", updatedAt := some n1 } hres ?_) ?_
    · intro h
      exact absurd hjob h
    · intro h
      rfl

theorem Job.get_jobs_go_writes (now : Int) (ks : List String) (s : Store)
    (hs : s.keysOk) (hp : ∀ k ∈ ks, (Store.find s k).isSome) :
    ∀ k ∈ ks, ∃ rc, (k, rc) ∈ (Job.get_jobs_go now ks s).2.2 := by
  induction ks generalizing s with
  | nil => simp
  | cons k0 ks ih =>
    intro k hk
    rcases hg : Job.get_job now s k0 with ⟨j0, s1, w1⟩
    rcases hgo : Job.get_jobs_go now ks s1 with ⟨js, s2, w2⟩
    have hred : (Job.get_jobs_go now (k0 :: ks) s).2.2 = w1 ++ w2 := by
      simp [Job.get_jobs_go, hg, hgo]
    rw [hred]
    rcases List.mem_cons.mp hk with hk0 | hks
    · subst hk0
      have hsome := hp k (List.mem_cons_self _ _)
      rcases hfound : Store.find s k with _ | r
      · rw [hfound] at hsome
        simp at hsome
      · obtain ⟨hky, hh⟩ := hs (k, r) (Store.find_mem s k r hfound)
        have hmem := Job.get_job_trace_mem now s k r hfound hh.symm hky.symm
        rw [hg] at hmem
        exact ⟨r, List.mem_append_left _ hmem⟩
    · have hs1 : s1.keysOk := by
        have := Job.get_job_keysOk now s k0 hs
        rw [hg] at this
        exact this
      have hp1 : ∀ k2 ∈ ks, (Store.find s1 k2).isSome := by
        intro k2 hk2
        have := Job.get_job_isSome now s k0 k2 hs (hp k2 (List.mem_cons_of_mem _ hk2))
        rw [hg] at this
        exact this
      obtain ⟨rc, hrc⟩ := ih s1 hs1 hp1 k hks
      rw [hgo] at hrc
      exact ⟨rc, List.mem_append_right _ hrc⟩

/-! ## Concrete records and traces used in witnesses and counterexamples -/

/-- A pending job for task "t" exactly as the create path writes it when the
module was loaded at time 0. -/
def demoPending : Job :=
  { id := sha256hex "t", task := "t", result := none, status := "pending",
    createdAt := 0, updatedAt := none, timeout := 300 }

/-- A running job for task "t" with a one-second timeout, created at time 0. -/
def demoRunning : Job :=
  { id := sha256hex "t", task := "t", result := none, status := "running",
    createdAt := 0, updatedAt := some 0, timeout := 1 }

/-- A completed job for task "t". -/
def demoCompleted : Job :=
  { id := sha256hex "t", task := "t", result := some "done",
    status := "completed", createdAt := 0, updatedAt := some 3, timeout := 300 }

/-- Trace of the promotion race: job "t" is created at time 0 (module load 0,
stored timeout 300). -/
def raceCreate : CreateOut := create_job 0 0 [] ⟨"t", false, 300⟩

/-- The runner marks the job running at time 5 (first update of run_job). -/
def raceRunning : Job × Store × List WriteEvent :=
  Job.update 5 raceCreate.store raceCreate.resp (some "running") none

/-- A read at time 400 (past the 300s window) promotes it to "timedOut". -/
def racePromoted : Store :=
  (Job.get_job 400 (raceRunning.2.1) (sha256hex "t")).2.1

/-- The agent returns at time 500 and the runner performs its completion
update (second update of run_job) on its in-memory running job, against the
store as left by the read. -/
def raceFinal : Store :=
  (Job.update 500 racePromoted (raceRunning.1) (some "completed")
    (some (some "ok"))).2.1

/-! ## Claims -/

/-- C1: the claim says each job created through the create-or-get path gets
`createdAt` equal to the current UTC time of that creation, so jobs created
at different times have different `createdAt` values and each timeout window
starts at its own creation instant. The code contradicts this (and its own
docstring "default: current UTC time"): the `createdAt` default argument of
`Job.__init__` is evaluated once at module load, so with module load at time
0, a job created at time 100 and another created at time 200 both persist
`createdAt = 0` — equal to each other and to neither creation time. -/
theorem c1_createdAt_is_module_load_time :
    (create_job 0 100 [] ⟨"a", false, 300⟩).resp.createdAt = 0 ∧
    (create_job 0 200 [] ⟨"b", false, 300⟩).resp.createdAt = 0 ∧
    (create_job 0 100 [] ⟨"a", false, 300⟩).resp.createdAt ≠ 100 ∧
    (create_job 0 200 [] ⟨"b", false, 300⟩).resp.createdAt ≠ 200 ∧
    (create_job 0 100 [] ⟨"a", false, 300⟩).resp.createdAt =
      (create_job 0 200 [] ⟨"b", false, 300⟩).resp.createdAt := by
  exact ⟨rfl, rfl, by decide, by decide, rfl⟩

/-- C2: the bounds 1 ≤ timeout ≤ 3600 are enforced on the request model, so
out-of-range requests are rejected; but the handler constructs
`Job(task=job_data.task)` without passing the request timeout, so a valid
request with timeout 100 persists a record whose timeout is the model default
300, not 100 — the "persisted timeout equals the requested t" half of the
claim fails on the code. -/
theorem c2_request_timeout_not_persisted :
    JobCreate.timeoutValid ⟨"t", false, 100⟩ ∧
    ¬JobCreate.timeoutValid ⟨"t", false, 0⟩ ∧
    ¬JobCreate.timeoutValid ⟨"t", false, 3601⟩ ∧
    (create_job 0 50 [] ⟨"t", false, 100⟩).resp.timeout = 300 ∧
    (create_job 0 50 [] ⟨"t", false, 100⟩).resp.timeout ≠ 100 ∧
    Store.find (create_job 0 50 [] ⟨"t", false, 100⟩).store (sha256hex "t") =
      some (create_job 0 50 [] ⟨"t", false, 100⟩).resp := by
  exact ⟨by decide, by decide, by decide, rfl, by decide, by decide⟩

/-- C3 counterexample: job "t" is created at time 0 (timeout 300), the runner
marks it running at time 5, a read at time 400 persists status "timedOut",
and the completion update of the runner at time 500 — which checks no status —
overwrites the persisted record back to "completed". Contrary to the claim, a
persisted "timedOut" status is changed by a later operation of the system. -/
theorem c3_timedOut_overwritten_to_completed :
    (Store.find racePromoted (sha256hex "t")).map Job.status = some "timedOut" ∧
    (Store.find raceFinal (sha256hex "t")).map Job.status = some "completed" := by
  exact ⟨by decide, by decide⟩

/-- C3 (amended): "completed" and "timedOut" are terminal with respect to the
read path — read-time timeout promotion applies only to records loaded with
status "running", so get/list returns and re-persists a "completed" or
"timedOut" record unchanged. (Terminality does not hold against the runner:
its completion update can overwrite a persisted "timedOut" record, see the
counterexample.) -/
theorem c3_terminal_under_reads (now : Int) (s : Store) (k : String) (r : Job)
    (hfind : Store.find s k = some r) (hhash : sha256hex r.task = r.id)
    (hid : r.id = k)
    (hterm : r.status = "completed" ∨ r.status = "timedOut") :
    (Job.get_job now s k).1 = some r ∧
    Store.find (Job.get_job now s k).2.1 k = some r := by
  have hnc : ¬(r.status = "running" ∧ Job.timed_out now r) := by
    rintro ⟨hrun, -⟩
    rcases hterm with h | h <;> rw [h] at hrun <;> exact absurd hrun (by decide)
  rw [Job.get_job_found now s k r hfind hhash hid, if_neg hnc]
  subst hid
  refine ⟨rfl, ?_⟩
  have : Store.find (Store.set s r.id r) r.id = some r := by
    rw [Store.find_set]
    simp
  exact this

/-- C3 witness: a stored completed record is returned and kept unchanged by a
read at any later time. -/
theorem c3_terminal_under_reads_witness :
    Store.find [(sha256hex "t", demoCompleted)] (sha256hex "t") = some demoCompleted ∧
    (Job.get_job 1000 [(sha256hex "t", demoCompleted)] (sha256hex "t")).1 =
      some demoCompleted := by
  refine ⟨by decide, ?_⟩
  exact (c3_terminal_under_reads 1000 [(sha256hex "t", demoCompleted)]
    (sha256hex "t") demoCompleted (by decide) rfl rfl (Or.inl rfl)).1

/-- C4: for a stored record read via get(id) (with the key invariant every
reachable record satisfies): if it is "running" and now - createdAt > timeout
at read time, the persisted status is rewritten to "timedOut" (updatedAt
stamped) before the record is returned; otherwise the record is returned with
every field unchanged; and a returned "timedOut" status for a record that was
not already "timedOut" arises only from "running" under exactly that
elapsed-time condition. -/
theorem c4_lazy_timeout_promotion (now : Int) (s : Store) (k : String) (r : Job)
    (hfind : Store.find s k = some r) (hhash : sha256hex r.task = r.id)
    (hid : r.id = k) :
    (r.status = "running" ∧ now - r.createdAt > r.timeout →
      (Job.get_job now s k).1 =
        some { r with status := "timedOut", updatedAt := some now } ∧
      Store.find (Job.get_job now s k).2.1 k =
        some { r with status := "timedOut", updatedAt := some now }) ∧
    (¬(r.status = "running" ∧ now - r.createdAt > r.timeout) →
      (Job.get_job now s k).1 = some r ∧
      Store.find (Job.get_job now s k).2.1 k = some r) ∧
    (∀ j, (Job.get_job now s k).1 = some j → j.status = "timedOut" →
      r.status ≠ "timedOut" →
      r.status = "running" ∧ now - r.createdAt > r.timeout) := by
  have ht : (r.status = "running" ∧ Job.timed_out now r) ↔
      (r.status = "running" ∧ now - r.createdAt > r.timeout) := by
    unfold Job.timed_out
    simp
  subst hid
  rw [Job.get_job_found now s r.id r hfind hhash rfl]
  by_cases hc : r.status = "running" ∧ now - r.createdAt > r.timeout
  · rw [if_pos (ht.mpr hc)]
    refine ⟨fun _ => ⟨rfl, ?_⟩, fun hn => absurd hc hn, fun j hj hjt hrt => hc⟩
    have : Store.find
        (Store.set (Store.set s r.id r) r.id (Job.promote now r)) r.id =
        some (Job.promote now r) := by
      rw [Store.find_set]
      simp
    exact this
  · rw [if_neg (fun hh => hc (ht.mp hh))]
    refine ⟨fun hcc => absurd hcc hc, fun _ => ⟨rfl, ?_⟩, ?_⟩
    · have : Store.find (Store.set s r.id r) r.id = some r := by
        rw [Store.find_set]
        simp
      exact this
    · intro j hj hjt hrt
      have hrj : r = j := by simpa using hj
      rw [← hrj] at hjt
      exact absurd hjt hrt

/-- C4 witness: a running record with timeout 1 created at time 0, read at
time 10, is returned promoted to "timedOut" with the promotion persisted. -/
theorem c4_lazy_timeout_promotion_witness :
    demoRunning.status = "running" ∧
    (10 : Int) - demoRunning.createdAt > demoRunning.timeout ∧
    (Job.get_job 10 [(sha256hex "t", demoRunning)] (sha256hex "t")).1 =
      some { demoRunning with status := "timedOut", updatedAt := some 10 } := by
  refine ⟨rfl, by decide, ?_⟩
  exact ((c4_lazy_timeout_promotion 10 [(sha256hex "t", demoRunning)]
    (sha256hex "t") demoRunning (by decide) rfl rfl).1 ⟨rfl, by decide⟩).1

/-- C5 (amended): resubmitting a task with overwrite=false yields the same id
(the SHA-256 of the task) and schedules no second execution; the stored
record is returned through the normal read path, which leaves every field
unchanged — unless the job is "running" past its timeout at that moment, in
which case the read inside the handler itself promotes the stored record to
"timedOut" (status and updatedAt change; see the counterexample). -/
theorem c5_resubmit_idempotent (mlt now : Int) (s : Store) (t : String)
    (tout : Int) (r : Job)
    (hfind : Store.find s (sha256hex t) = some r)
    (hhash : sha256hex r.task = r.id) (hid : r.id = sha256hex t) :
    (create_job mlt now s ⟨t, false, tout⟩).scheduled = false ∧
    (create_job mlt now s ⟨t, false, tout⟩).resp.id = sha256hex t ∧
    (¬(r.status = "running" ∧ Job.timed_out now r) →
      (create_job mlt now s ⟨t, false, tout⟩).resp = r ∧
      Store.find (create_job mlt now s ⟨t, false, tout⟩).store (sha256hex t) =
        some r) ∧
    (r.status = "running" ∧ Job.timed_out now r →
      (create_job mlt now s ⟨t, false, tout⟩).resp = Job.promote now r ∧
      Store.find (create_job mlt now s ⟨t, false, tout⟩).store (sha256hex t) =
        some (Job.promote now r)) := by
  unfold create_job
  dsimp only
  rw [Job.get_job_found now s (sha256hex t) r hfind hhash hid]
  by_cases hc : r.status = "running" ∧ Job.timed_out now r
  · rw [if_pos hc]
    refine ⟨rfl, hid, fun hn => absurd hc hn, fun _ => ⟨rfl, ?_⟩⟩
    have : Store.find
        (Store.set (Store.set s r.id r) r.id (Job.promote now r)) (sha256hex t) =
        some (Job.promote now r) := by
      rw [Store.find_set]
      simp [hid]
    exact this
  · rw [if_neg hc]
    refine ⟨rfl, hid, fun _ => ⟨rfl, ?_⟩, fun hcc => absurd hcc hc⟩
    have : Store.find (Store.set s r.id r) (sha256hex t) = some r := by
      rw [Store.find_set]
      simp [hid]
    exact this

/-- C5 counterexample: after "t" is created (time 0, stored timeout 300) and
marked running by the runner at time 5, a second submission with
overwrite=false at time 400 returns the same id and schedules nothing — but
the read inside the handler rewrites the stored record to "timedOut" with
updatedAt 400, so the stored record is NOT left with no field modified. -/
theorem c5_resubmission_mutates_store :
    (Store.find (raceRunning.2.1) (sha256hex "t")).map Job.status =
      some "running" ∧
    (create_job 0 400 (raceRunning.2.1) ⟨"t", false, 300⟩).scheduled = false ∧
    (Store.find (create_job 0 400 (raceRunning.2.1) ⟨"t", false, 300⟩).store
      (sha256hex "t")).map Job.status = some "timedOut" ∧
    (Store.find (create_job 0 400 (raceRunning.2.1) ⟨"t", false, 300⟩).store
      (sha256hex "t")).map Job.updatedAt = some (some 400) := by
  exact ⟨by decide, by decide, by decide, by decide⟩

/-- C5 witness: a stored pending record for "t": resubmission at time 9
returns it unchanged with the same id and schedules nothing. -/
theorem c5_resubmit_idempotent_witness :
    Store.find [(sha256hex "t", demoPending)] (sha256hex "t") = some demoPending ∧
    (create_job 0 9 [(sha256hex "t", demoPending)] ⟨"t", false, 300⟩).scheduled =
      false ∧
    (create_job 0 9 [(sha256hex "t", demoPending)] ⟨"t", false, 300⟩).resp =
      demoPending := by
  refine ⟨by decide, ?_, ?_⟩
  · exact (c5_resubmit_idempotent 0 9 [(sha256hex "t", demoPending)] "t" 300
      demoPending (by decide) rfl rfl).1
  · exact ((c5_resubmit_idempotent 0 9 [(sha256hex "t", demoPending)] "t" 300
      demoPending (by decide) rfl rfl).2.2.1 (by decide)).1

/-- C6: the id of a job built by Job.__init__ is the hex-encoded SHA-256 of
its task, identically across repeated constructions (the id is a pure
function of the task); the save performed by the construction files the
record under the own id of the record; Job.save always uses that id as the
file key; and the invariant "store key = record id = sha256hex(task)" is
preserved by get_job, create_job and run_job (the latter for a job whose id
is well-formed, as it is for every constructed job). -/
theorem c6_id_sha256_key_agreement (s s2 : Store) (task : String)
    (res res2 : Option String) (st st2 : String) (ca ca2 : Int)
    (ua ua2 : Option Int) (ti ti2 now mlt n1 n2 : Int) (k : String)
    (jd : JobCreate) (job : Job) (ag : Except String (Option String)) :
    (Job.init s task res st ca ua ti).1.id = sha256hex task ∧
    (Job.init s task res st ca ua ti).1.id =
      (Job.init s2 task res2 st2 ca2 ua2 ti2).1.id ∧
    (Job.init s task res st ca ua ti).2.2 =
      [((Job.init s task res st ca ua ti).1.id, (Job.init s task res st ca ua ti).1)] ∧
    (Job.save s job).2 = [(job.id, job)] ∧
    (s.keysOk → ((Job.get_job now s k).2.1).keysOk) ∧
    (s.keysOk → ((create_job mlt now s jd).store).keysOk) ∧
    (s.keysOk → job.id = sha256hex job.task →
      ((run_job n1 n2 s job ag).2.1).keysOk) := by
  exact ⟨rfl, rfl, rfl, rfl, fun h => Job.get_job_keysOk now s k h,
    fun h => create_job_keysOk mlt now s jd h,
    fun h hj => run_job_keysOk n1 n2 s job ag h hj⟩

/-- C6 witness: a singleton store holding the pending record for "t" under
its hash key satisfies the key invariant, and still does after a read. -/
theorem c6_id_sha256_key_agreement_witness :
    Store.keysOk [(sha256hex "t", demoPending)] ∧
    ((Job.get_job 9 [(sha256hex "t", demoPending)] (sha256hex "t")).2.1).keysOk := by
  refine ⟨by decide, ?_⟩
  exact (c6_id_sha256_key_agreement [(sha256hex "t", demoPending)] [] "t"
    none none "pending" "pending" 0 0 none none 300 300 9 0 0 0
    (sha256hex "t") ⟨"t", false, 300⟩ demoPending (.ok none)).2.2.2.2.1
    (by decide)

/-- C7: when the agent call raises, run_job performs no write after the
"running" update: its trace is exactly the single running write, the
persisted record has status "running" and result null, and the error
propagates out of the runner unchanged. -/
theorem c7_agent_failure_leaves_running (now1 now2 : Int) (s : Store)
    (job : Job) (e : String) (hres : job.result = none) :
    (run_job now1 now2 s job (.error e)).1 = .error e ∧
    (run_job now1 now2 s job (.error e)).2.2 =
      [(job.id, { job with status := "running", updatedAt := some now1 })] ∧
    Store.find (run_job now1 now2 s job (.error e)).2.1 job.id =
      some { job with status := "running", updatedAt := some now1 } ∧
    ({ job with status := "running", updatedAt := some now1 } : Job).result =
      none := by
  refine ⟨rfl, rfl, ?_, hres⟩
  have : Store.find
      (Store.set s job.id { job with status := "running", updatedAt := some now1 })
      job.id = some { job with status := "running", updatedAt := some now1 } := by
    rw [Store.find_set]
    simp
  exact this

/-- C7 witness: the fresh pending record for "t" run against a raising agent:
the error comes back and the store holds the record as running, result null. -/
theorem c7_agent_failure_leaves_running_witness :
    demoPending.result = none ∧
    (run_job 5 9 [(sha256hex "t", demoPending)] demoPending (.error "boom")).1 =
      .error "boom" ∧
    Store.find
      (run_job 5 9 [(sha256hex "t", demoPending)] demoPending (.error "boom")).2.1
      (sha256hex "t") =
      some { demoPending with status := "running", updatedAt := some 5 } := by
  refine ⟨rfl, ?_, ?_⟩
  · exact (c7_agent_failure_leaves_running 5 9 [(sha256hex "t", demoPending)]
      demoPending "boom" rfl).1
  · exact (c7_agent_failure_leaves_running 5 9 [(sha256hex "t", demoPending)]
      demoPending "boom" rfl).2.2.1

/-- C8 (amended): saving a Job and reloading it by its id yields field-for-field
equality — provided the record is not a "running" record already past its
timeout at load time; in that case the reload applies timeout promotion and
comes back differing in status ("timedOut") and updatedAt (see the
counterexample). The hash hypothesis holds for every Job constructed by
Job.__init__, which forces id = sha256hex(task). -/
theorem c8_save_load_roundtrip (now : Int) (s : Store) (j : Job)
    (hhash : sha256hex j.task = j.id)
    (hnp : ¬(j.status = "running" ∧ Job.timed_out now j)) :
    (Job.get_job now (Job.save s j).1 j.id).1 = some j ∧
    Store.find (Job.get_job now (Job.save s j).1 j.id).2.1 j.id = some j := by
  have hfind : Store.find (Job.save s j).1 j.id = some j := by
    unfold Job.save
    dsimp
    rw [Store.find_set]
    simp
  rw [Job.get_job_found now (Job.save s j).1 j.id j hfind hhash rfl, if_neg hnp]
  refine ⟨rfl, ?_⟩
  have : Store.find (Store.set (Job.save s j).1 j.id j) j.id = some j := by
    rw [Store.find_set]
    simp
  exact this

/-- C8 counterexample: the running record for "t" with timeout 1 created at
time 0, saved and reloaded at time 100, comes back as "timedOut" with
updatedAt 100 — not field-for-field equal to the record that was saved. -/
theorem c8_roundtrip_fails_when_promoted :
    (Job.get_job 100 (Job.save [] demoRunning).1 demoRunning.id).1 ≠
      some demoRunning ∧
    (Job.get_job 100 (Job.save [] demoRunning).1 demoRunning.id).1 =
      some { demoRunning with status := "timedOut", updatedAt := some 100 } := by
  exact ⟨by decide, by decide⟩

/-- C8 witness: the pending record for "t" saved and reloaded at time 50
comes back field-for-field equal. -/
theorem c8_save_load_roundtrip_witness :
    ¬(demoPending.status = "running" ∧ Job.timed_out 50 demoPending) ∧
    (Job.get_job 50 (Job.save [] demoPending).1 demoPending.id).1 =
      some demoPending := by
  refine ⟨by decide, ?_⟩
  exact (c8_save_load_roundtrip 50 [] demoPending rfl (by decide)).1

/-- C9: the invariant "result is non-null only when status = completed" is
preserved by every operation: by save (for a record satisfying it), by
construction through Job.__init__ with result none (the creation path), by
reads including their promotion side effect (both in the store and on the
returned record), by the POST handler, and by the running/completed
updates of the runner (its input job, freshly created, has result none). -/
theorem c9_result_only_when_completed (s : Store) (r job : Job)
    (task st : String) (ca : Int) (ua : Option Int) (ti now mlt n1 n2 : Int)
    (k : String) (jd : JobCreate) (ag : Except String (Option String)) :
    (s.resultOk → r.resultOk → ((Job.save s r).1).resultOk) ∧
    (s.resultOk → ((Job.init s task none st ca ua ti).2.1).resultOk ∧
      (Job.init s task none st ca ua ti).1.resultOk) ∧
    (s.keysOk → s.resultOk → ((Job.get_job now s k).2.1).resultOk) ∧
    (s.keysOk → s.resultOk →
      ∀ j, (Job.get_job now s k).1 = some j → j.resultOk) ∧
    (s.keysOk → s.resultOk → ((create_job mlt now s jd).store).resultOk ∧
      (create_job mlt now s jd).resp.resultOk) ∧
    (s.resultOk → job.result = none → ((run_job n1 n2 s job ag).2.1).resultOk) := by
  refine ⟨?_, ?_, ?_, ?_, ?_, ?_⟩
  · exact fun hs hr => Store.resultOk_set s r.id r hs hr
  · exact fun hs => Job.init_resultOk s task st ca ua ti hs
  · exact fun hk hs => Job.get_job_resultOk now s k hk hs
  · exact fun hk hs => Job.get_job_ret_resultOk now s k hk hs
  · exact fun hk hs => create_job_resultOk mlt now s jd hk hs
  · exact fun hs hj => run_job_resultOk n1 n2 s job ag hs hj

/-- C9 witness: the running record for "t" read at time 10 — the promotion to
"timedOut" fires and the store still satisfies the result invariant. -/
theorem c9_result_only_when_completed_witness :
    Store.keysOk [(sha256hex "t", demoRunning)] ∧
    Store.resultOk [(sha256hex "t", demoRunning)] ∧
    ((Job.get_job 10 [(sha256hex "t", demoRunning)] (sha256hex "t")).2.1).resultOk := by
  refine ⟨by decide, by decide, ?_⟩
  exact (c9_result_only_when_completed [(sha256hex "t", demoRunning)]
    demoRunning demoPending "t" "pending" 0 none 300 10 0 0 0
    (sha256hex "t") ⟨"t", false, 300⟩ (.ok none)).2.2.1 (by decide) (by decide)

/-- C10: every read of an existing record writes to storage: get_job re-saves
the loaded record under its key as a side effect of the in-memory Job
construction, so its write trace is non-empty and begins with that rewrite —
even when the record is not "running" or its timeout has not elapsed, in
which case the trace is exactly the one rewrite of the unchanged record; and
under get_jobs every listed key of a well-keyed store also receives a write. -/
theorem c10_reads_always_rewrite (now : Int) (s : Store) (k : String) (r : Job)
    (hfind : Store.find s k = some r) (hhash : sha256hex r.task = r.id)
    (hid : r.id = k) :
    (Job.get_job now s k).2.2 ≠ [] ∧
    (k, r) ∈ (Job.get_job now s k).2.2 ∧
    (¬(r.status = "running" ∧ Job.timed_out now r) →
      (Job.get_job now s k).2.2 = [(k, r)]) ∧
    (s.keysOk → ∀ k2 ∈ s.map Prod.fst,
      ∃ rc, (k2, rc) ∈ (Job.get_jobs now s).2.2) := by
  refine ⟨?_, Job.get_job_trace_mem now s k r hfind hhash hid, ?_, ?_⟩
  · rw [Job.get_job_found now s k r hfind hhash hid]
    by_cases hc : r.status = "running" ∧ Job.timed_out now r <;> simp [hc]
  · intro hn
    rw [Job.get_job_found now s k r hfind hhash hid, if_neg hn]
    rw [hid]
  · intro hk
    unfold Job.get_jobs
    exact Job.get_jobs_go_writes now (s.map Prod.fst) s hk
      (fun k2 hk2 => Store.mem_keys_isSome s k2 hk2)

/-- C10 witness: reading the stored completed record for "t" — no promotion
applies, yet the read rewrites the file: the trace is exactly one write of
the unchanged record under its key. -/
theorem c10_reads_always_rewrite_witness :
    Store.find [(sha256hex "t", demoCompleted)] (sha256hex "t") =
      some demoCompleted ∧
    ¬(demoCompleted.status = "running" ∧ Job.timed_out 7 demoCompleted) ∧
    (Job.get_job 7 [(sha256hex "t", demoCompleted)] (sha256hex "t")).2.2 =
      [(sha256hex "t", demoCompleted)] := by
  refine ⟨by decide, by decide, ?_⟩
  exact (c10_reads_always_rewrite 7 [(sha256hex "t", demoCompleted)]
    (sha256hex "t") demoCompleted (by decide) rfl rfl).2.2.1 (by decide)
